import Mathlib

/-!
Verification model of the campaign scheduling / multi-account dispatch engine
of the instagram-dm-saas repository (class `CampaignService` in
`src/lib/server/campaign/campaign-service.ts`, served through the route files).

Modelling conventions:
* Timestamps are integers, milliseconds since the Unix epoch, in the runtime's
  local clock (the source uses JS `Date`; the model fixes the runtime offset to
  zero, i.e. local = UTC, which is the deployment configuration the source's
  `toISOString` quota keys assume).
* `Math.random()` draws are modelled as explicit rational parameters in `[0,1)`
  (an oracle `Nat → ℚ` threaded by call order where several draws happen).
  The source's float constants `0.6`, `0.2` are modelled by the exact rationals;
  none of the verified properties depend on the float rounding of those
  constants.
* Database rows live in plain lists; `prisma` point updates become `List.map`
  over the row id, upserts become find-then-map-or-append.  `await` points have
  no observable effect (the engine is invoked sequentially), so the functions
  are direct state transformers.
* The external messaging transport, cookie decryption and template-variant
  randomness are oracles (`Oracle`), universally quantified in every theorem.
-/

/-- JS `s || dflt` on strings: the empty string is falsy. -/
def jsOr (s dflt : String) : String := if s = "" then dflt else s

/-- JS `o || dflt` where `o` is a nullable string column. -/
def jsOrOpt (o : Option String) (dflt : String) : String :=
  match o with
  | some s => jsOr s dflt
  | none => dflt

/-- Char-list prefix test used by the literal-pattern replacement below. -/
def patMatches : List Char → List Char → Bool
  | [], _ => true
  | _ :: _, [] => false
  | p :: ps, c :: cs => p == c && patMatches ps cs

/-- Global (left-to-right, non-overlapping, no rescan of the replacement)
replacement of a literal pattern, the semantics of JS
`String.prototype.replace(/literal/g, rep)` for a non-empty literal pattern.
`fuel` is the length of the subject, enough because each step consumes at
least one character. -/
def replaceAllFuel (pat rep : List Char) : Nat → List Char → List Char
  | 0, s => s
  | _ + 1, [] => []
  | fuel + 1, c :: rest =>
    if patMatches pat (c :: rest) then
      rep ++ replaceAllFuel pat rep fuel (List.drop (pat.length - 1) rest)
    else
      c :: replaceAllFuel pat rep fuel rest

/-- String-level wrapper for `replaceAllFuel`. -/
def replaceAll (s pat rep : String) : String :=
  String.mk (replaceAllFuel pat.toList rep.toList s.toList.length s.toList)

/-- A contact row (the fields `personalizeMessage` reads). -/
structure Contact where
  id : Nat
  name : Option String
  igUsername : Option String
deriving DecidableEq, Repr

/-- Source: `CampaignService.personalizeMessage`.  Substitutes the two
placeholder tokens; `\x7b\x7bname\x7d\x7d` gets `contact.name ||
contact.igUsername || 'there'`, `\x7b\x7busername\x7d\x7d` gets
`contact.igUsername || ''`. -/
def personalizeMessage (template : String) (contact : Contact) : String :=
  let name := jsOrOpt contact.name (jsOrOpt contact.igUsername "there")
  let m1 := replaceAll template "\x7b\x7bname\x7d\x7d" name
  replaceAll m1 "\x7b\x7busername\x7d\x7d"
    (match contact.igUsername with | some s => s | none => "")

/-! Time arithmetic.  JS `Date` setters operate on the local clock (offset 0
in this model); `setHours`/`setMinutes`/`setSeconds` replace one field and
keep the finer ones, normalising overflow (e.g. hour 25 rolls into the next
day), which over integer milliseconds is the arithmetic below.  All divisors
are positive, so `Int.ediv`/`Int.emod` are exactly JS `Math.floor`-division
and the (non-negative-argument) `%`. -/

/-- Milliseconds per calendar day. -/
def dayLen : Int := 86400000

/-- UTC calendar-day index of a timestamp: the key
`date.toISOString().split('T')[0]` that the quota ledger uses. -/
def utcDay (t : Int) : Int := t / dayLen

/-- JS `d.setHours(h)` (keeping minutes, seconds, milliseconds). -/
def setHours (h : Int) (d : Int) : Int :=
  d - d % dayLen + h * 3600000 + d % 3600000

/-- JS `d.setMinutes(m)` (keeping seconds and milliseconds). -/
def setMinutes (m : Int) (d : Int) : Int :=
  d - d % 3600000 + m * 60000 + d % 60000

/-- JS `d.setSeconds(s)` (keeping milliseconds). -/
def setSeconds (s : Int) (d : Int) : Int :=
  d - d % 60000 + s * 1000 + d % 1000

/-- Split a character list on a separator, the semantics of JS
`String.prototype.split` for a single-character separator. -/
def splitFields (sep : Char) : List Char → List (List Char)
  | [] => [[]]
  | c :: cs =>
    if c == sep then [] :: splitFields sep cs
    else
      match splitFields sep cs with
      | [] => [[c]]
      | f :: rest => (c :: f) :: rest

/-- Digit-string value accumulator for the `Number(...)` model. -/
def parseDigits : List Char → Nat → Option Nat
  | [], acc => some acc
  | c :: cs, acc =>
    if '0' ≤ c && c ≤ '9' then parseDigits cs (acc * 10 + (c.toNat - '0'.toNat))
    else none

/-- JS `Number(p)` for the clock-field strings: the numeric value of a digit
string ("" gives 0, as in JS).  A non-numeric field is NaN in JS; the model
returns 0 there, and every theorem constrains itself to well-formed clock
strings. -/
def jsNumber (p : List Char) : Int :=
  match parseDigits p 0 with
  | some n => (n : Int)
  | none => 0

/-- JS `const [h, m] = s.split(':').map(Number)` for the `HH:mm:ss` config
strings (the seconds part is parsed but unused by the source). -/
def parseClock (s : String) : Int × Int :=
  let parts := (splitFields ':' s.toList).map jsNumber
  (parts.getD 0 0, parts.getD 1 0)

/-- Exact value of JS `Math.floor(q * n)` for a rational draw `q` and an
integer `n`, computed on the numerator and denominator so that the kernel can
evaluate it; `floorRatMulInt_eq` below proves it equal to `⌊q * n⌋`. -/
def floorRatMulInt (q : ℚ) (n : Int) : Int := q.num * n / (q.den : Int)

/-- Exact value of JS
`Math.floor(startMinutes + rangeMinutes * (q * 0.6 + 0.2))`, computed on the
numerator and denominator; `floorRandomMinutes_eq` below proves it equal to
the real-valued floor of the source expression. -/
def floorRandomMinutes (startMinutes rangeMinutes : Int) (q : ℚ) : Int :=
  startMinutes + rangeMinutes * (6 * q.num + 2 * (q.den : Int)) / (10 * (q.den : Int))

/-- Source: `CampaignService.generateRandomTime`.  `rFactor` and `rSeconds`
are the two `Math.random()` draws (factor first, seconds second, matching the
source's call order). -/
def generateRandomTime (startTime endTime : String) (date : Int)
    (rFactor rSeconds : ℚ) : Int :=
  let sp := parseClock startTime
  let ep := parseClock endTime
  let startMinutes := sp.1 * 60 + sp.2
  let endMinutes := ep.1 * 60 + ep.2
  let range0 := endMinutes - startMinutes
  let rangeMinutes := if range0 < 0 then range0 + 24 * 60 else range0
  let randomMinutes : Int := floorRandomMinutes startMinutes rangeMinutes rFactor
  let t1 := setHours (randomMinutes / 60) date
  let t2 := setMinutes (randomMinutes % 60) t1
  setSeconds (floorRatMulInt rSeconds 60) t2

/-- Source: `CampaignService.ensureMinimumGap`.  Walks the already-scheduled
times in order; whenever the candidate is within the gap of one of them it is
replaced by that time plus the gap plus a 0-10 minute jitter draw (`new Date`
truncates the fractional milliseconds, hence the floor).  Returns the adjusted
time together with the next unused draw index. -/
def ensureMinimumGap (time : Int) (existingTimes : List Int) (minGapMinutes : Int)
    (draws : Nat → ℚ) (k : Nat) : Int × Nat :=
  let minGapMs := minGapMinutes * 60 * 1000
  existingTimes.foldl
    (fun st existingTime =>
      if |st.1 - existingTime| < minGapMs then
        (existingTime + minGapMs + floorRatMulInt (draws st.2) 600000, st.2 + 1)
      else st)
    (time, k)

/-- The `dailyCount + i >= config.messagesPerDay` branch of
`assignRecipientsAndSchedule`: over-quota recipients get a base date of
exactly `today.setDate(getDate() + 1)`, i.e. one calendar day ahead. -/
def scheduledBaseDate (today : Int) (cap dc i : Nat) : Int :=
  if cap ≤ dc + i then today + dayLen else today

/-- The `ScheduleConfig` interface of the source. -/
structure ScheduleConfig where
  sendStartTime : String
  sendEndTime : String
  timezone : String
  messagesPerDay : Nat
  accountIds : List Nat
deriving DecidableEq, Repr

/-- One element of the `recipientAssignments` argument (its `status` field is
the constant `'PENDING'` and is dropped). -/
structure Assignment where
  campaignId : Nat
  contactId : Nat
  assignedAccountId : Nat
  currentStepOrder : Nat
deriving DecidableEq, Repr

/-- An assignment with the scheduled `nextProcessAt` attached. -/
structure ScheduledAssignment where
  assignment : Assignment
  nextProcessAt : Int
deriving DecidableEq, Repr

/-- A row of `AccountDailyMessageCount`. -/
structure LedgerRec where
  instagramAccountId : Nat
  date : Int
  messageCount : Nat
deriving DecidableEq, Repr

/-- Source: `CampaignService.getAccountDailyCount` (`count?.messageCount || 0`). -/
def getAccountDailyCount (ledger : List LedgerRec) (accountId : Nat) (date : Int) : Nat :=
  match ledger.find? (fun e => e.instagramAccountId == accountId && e.date == utcDay date) with
  | some e => e.messageCount
  | none => 0

/-- Loop body of the per-account scheduling loop in
`assignRecipientsAndSchedule`: the state is (scheduled times so far, next
draw index, output so far); the loop index `i` equals the number of times
already scheduled. -/
def scheduleAccountStep (config : ScheduleConfig) (today : Int) (draws : Nat → ℚ)
    (dc : Nat) (st : List Int × Nat × List ScheduledAssignment) (r : Assignment) :
    List Int × Nat × List ScheduledAssignment :=
  let times := st.1
  let k := st.2.1
  let out := st.2.2
  let scheduledDate := scheduledBaseDate today config.messagesPerDay dc times.length
  let randomTime := generateRandomTime config.sendStartTime config.sendEndTime
    scheduledDate (draws k) (draws (k+1))
  let g := ensureMinimumGap randomTime times 5 draws (k+2)
  (times ++ [g.1], g.2, out ++ [⟨r, g.1⟩])

/-- Scheduling pass for the recipients of one account. -/
def scheduleForAccount (config : ScheduleConfig) (today : Int) (draws : Nat → ℚ)
    (dc : Nat) (recipients : List Assignment) (k : Nat) :
    List Int × Nat × List ScheduledAssignment :=
  recipients.foldl (scheduleAccountStep config today draws dc) ([], k, [])

/-- First-occurrence key order of a JS object built by insertion
(`Object.entries` iteration order for integer-free string keys). -/
def keyOrderFuel : Nat → List Nat → List Nat
  | 0, _ => []
  | _ + 1, [] => []
  | f + 1, a :: rest => a :: keyOrderFuel f (rest.filter (fun b => !(b == a)))

/-- Source: `CampaignService.assignRecipientsAndSchedule`.  Groups the
assignments by account (insertion order), reads each account's daily count
from the ledger, and schedules each partition with `scheduleForAccount`. -/
def assignRecipientsAndSchedule (campaignId : Nat)
    (recipientAssignments : List Assignment) (config : ScheduleConfig)
    (ledger : List LedgerRec) (today : Int) (draws : Nat → ℚ) :
    List ScheduledAssignment :=
  let _ := campaignId
  let order := keyOrderFuel recipientAssignments.length
    (recipientAssignments.map (fun a => a.assignedAccountId))
  (order.foldl
    (fun st accountId =>
      let recipients := recipientAssignments.filter
        (fun a => a.assignedAccountId == accountId)
      let dc := getAccountDailyCount ledger accountId today
      let res := scheduleForAccount config today draws dc recipients st.2
      (st.1 ++ res.2.2, res.2.1))
    (([] : List ScheduledAssignment), 0)).1

/-! The campaign run loop (`CampaignService.processCampaign`) and its state. -/

/-- Recipient statuses. -/
inductive RStatus
  | PENDING
  | IN_PROGRESS
  | COMPLETED
  | FAILED
deriving DecidableEq, Repr

/-- Campaign statuses. -/
inductive CStatus
  | DRAFT
  | RUNNING
  | COMPLETED
  | FAILED
deriving DecidableEq, Repr

/-- A `CampaignStep` row.  `variants` is the (possibly empty) list of template
strings found in the step's `condition.variants` JSON blob; an empty list
models a step without variants. -/
structure StepRec where
  id : Nat
  stepOrder : Nat
  messageTemplate : String
  delayMinutes : Nat
  variants : List String
deriving DecidableEq, Repr

/-- A `CampaignRecipient` row (with its contact joined, as the snapshot query
does). -/
structure RecipientRec where
  id : Nat
  contact : Contact
  assignedAccountId : Nat
  status : RStatus
  currentStepOrder : Nat
  nextProcessAt : Option Int
  lastProcessedAt : Option Int
  errorMessage : Option String
deriving DecidableEq, Repr

/-- The campaign row fields the loop reads and writes. -/
structure CampaignRec where
  id : Nat
  status : CStatus
  messagesPerDay : Nat
  sentCount : Nat
  failedCount : Nat
  completedAt : Option Int
deriving DecidableEq, Repr

/-- A `Message` row created for a successful send. -/
structure MessageRec where
  conversationId : Nat
  content : String
  direction : String
  status : String
  sentAt : Int
  campaignStepId : Nat
deriving DecidableEq, Repr

/-- A `Conversation` row. -/
structure ConversationRec where
  id : Nat
  instagramAccountId : Nat
  contactId : Nat
deriving DecidableEq, Repr

/-- The persisted state one `processCampaign(campaignId)` invocation touches:
the campaign (`none` models a load failure), its steps (as delivered by the
`orderBy stepOrder asc` query), its recipients, the `campaign_accounts`
junction rows, the legacy single-account reference, the `InstagramAccount`
rows (id and encrypted `accessToken`), the quota ledger, and the message /
conversation stores (`nextConvId` models the row-id generator). -/
structure Db where
  campaign : Option CampaignRec
  steps : List StepRec
  recipients : List RecipientRec
  junctionAccounts : List Nat
  legacyAccount : Option Nat
  igAccounts : List (Nat × Option String)
  ledger : List LedgerRec
  messages : List MessageRec
  conversations : List ConversationRec
  nextConvId : Nat
deriving DecidableEq, Repr

/-- Outcome of one transport call: a structured `{success, error}` result or a
thrown exception (whose `.message` may be absent). -/
inductive SendOutcome
  | result (success : Bool) (error : Option String)
  | exn (message : Option String)
deriving DecidableEq, Repr

/-- External nondeterminism of one invocation: the transport outcome and the
variant draw for each recipient id (each recipient is sent to at most once
per invocation), and cookie decryption. -/
structure Oracle where
  send : Nat → SendOutcome
  variantPick : Nat → ℚ
  decrypt : String → Option String

/-- Source: `CampaignService.incrementAccountDailyCount` (prisma `upsert`
keyed on `(instagramAccountId, date)`). -/
def incrementAccountDailyCount (db : Db) (accountId : Nat) (date : Int) : Db :=
  let d := utcDay date
  if (db.ledger.find? (fun e => e.instagramAccountId == accountId && e.date == d)).isSome then
    { db with ledger := db.ledger.map (fun e =>
        if e.instagramAccountId == accountId && e.date == d then
          { e with messageCount := e.messageCount + 1 }
        else e) }
  else
    { db with ledger := db.ledger ++ [⟨accountId, d, 1⟩] }

/-- Source: `CampaignService.getOrCreateConversation`. -/
def getOrCreateConversation (db : Db) (instagramAccountId contactId : Nat) : Nat × Db :=
  match db.conversations.find? (fun c =>
      c.instagramAccountId == instagramAccountId && c.contactId == contactId) with
  | some c => (c.id, db)
  | none =>
    (db.nextConvId,
      { db with
        conversations := db.conversations ++
          [⟨db.nextConvId, instagramAccountId, contactId⟩],
        nextConvId := db.nextConvId + 1 })

/-- Source: `CampaignService.getCookiesForAccount` (`null` on a missing
account, a falsy `accessToken`, or a failed decryption). -/
def getCookiesForAccount (db : Db) (o : Oracle) (accountId : Nat) : Option String :=
  match db.igAccounts.find? (fun a => a.1 == accountId) with
  | none => none
  | some (_, none) => none
  | some (_, some tok) => if tok = "" then none else o.decrypt tok

/-- Source: `CampaignService.getCampaignAccounts`: the junction rows if any,
otherwise the legacy single account, otherwise none. -/
def getCampaignAccounts (db : Db) : List Nat :=
  if 0 < db.junctionAccounts.length then db.junctionAccounts
  else
    match db.legacyAccount with
    | some a => [a]
    | none => []

/-- A prisma `campaignRecipient.update({where: {id}, data})` point update. -/
def updateRecipient (db : Db) (rid : Nat) (f : RecipientRec → RecipientRec) : Db :=
  { db with recipients := db.recipients.map (fun r => if r.id = rid then f r else r) }

/-- Body of the per-recipient `try`/`catch` block of `processCampaign`.
`r` is the snapshot row read at the start of the invocation (the source
iterates over the loaded objects, not fresh reads).  An `exn` transport
outcome models a throw inside the block, landing in the `catch` that marks
the recipient FAILED with the exception's message. -/
def processRecipient (o : Oracle) (now : Int) (steps : List StepRec)
    (accountId : Nat) (cookies : String) (db : Db) (r : RecipientRec) : Db :=
  let _ := cookies
  if (match r.nextProcessAt with | some t => decide (now < t) | none => false) then db
  else
    match steps.find? (fun s => s.stepOrder == r.currentStepOrder + 1) with
    | none =>
      updateRecipient db r.id (fun x =>
        { x with status := RStatus.COMPLETED, lastProcessedAt := some now })
    | some currentStep =>
      let messageTemplate :=
        if 0 < currentStep.variants.length then
          let randomIndex :=
            (floorRatMulInt (o.variantPick r.id) (currentStep.variants.length : Int)).toNat
          jsOr (currentStep.variants.getD randomIndex "") currentStep.messageTemplate
        else currentStep.messageTemplate
      let message := personalizeMessage messageTemplate r.contact
      match o.send r.id with
      | SendOutcome.exn m =>
        updateRecipient db r.id (fun x =>
          { x with status := RStatus.FAILED, errorMessage := m })
      | SendOutcome.result true _ =>
        let nextStep := steps.find? (fun s => s.stepOrder == r.currentStepOrder + 2)
        let delayMinutes := match nextStep with | some s => s.delayMinutes | none => 0
        let nextProcessAt := now + (delayMinutes : Int) * 60000
        let db1 := updateRecipient db r.id (fun x =>
          { x with
            status := RStatus.IN_PROGRESS,
            currentStepOrder := currentStep.stepOrder,
            lastProcessedAt := some now,
            nextProcessAt := match nextStep with | some _ => some nextProcessAt | none => none })
        let conv := getOrCreateConversation db1 accountId r.contact.id
        let db2 := conv.2
        let msg : MessageRec :=
          ⟨conv.1, message, "OUTBOUND", "SENT", now, currentStep.id⟩
        let db3 := { db2 with messages := db2.messages ++ [msg] }
        let db4 := { db3 with campaign := db3.campaign.map (fun c =>
          { c with sentCount := c.sentCount + 1 }) }
        incrementAccountDailyCount db4 accountId now
      | SendOutcome.result false err =>
        let db1 := updateRecipient db r.id (fun x =>
          { x with status := RStatus.FAILED, errorMessage := some (jsOrOpt err "Unknown error") })
        { db1 with campaign := db1.campaign.map (fun c =>
          { c with failedCount := c.failedCount + 1 }) }

/-- Body of the per-account loop of `processCampaign`: skip if the account has
no assigned (snapshot) recipients, no usable cookies, or its daily count has
reached `campaign.messagesPerDay`; otherwise process each recipient in order. -/
def processAccount (o : Oracle) (now : Int) (campaign : CampaignRec)
    (steps : List StepRec) (snapshot : List RecipientRec) (db : Db)
    (accountId : Nat) : Db :=
  let accountRecipients := snapshot.filter (fun r => r.assignedAccountId == accountId)
  if accountRecipients.length = 0 then db
  else
    match getCookiesForAccount db o accountId with
    | none => db
    | some cookies =>
      let dailyCount := getAccountDailyCount db.ledger accountId now
      if campaign.messagesPerDay ≤ dailyCount then db
      else
        accountRecipients.foldl (fun d r => processRecipient o now steps accountId cookies d r) db

/-- Source: `CampaignService.processCampaign`.  Loads the campaign (with its
steps and its PENDING / IN_PROGRESS recipients as a snapshot), no-ops when the
status is not RUNNING or there are no steps, throws when no accounts are
assigned, runs the per-account loop, and finally marks the campaign COMPLETED
when no PENDING / IN_PROGRESS recipients remain. -/
def processCampaign (db : Db) (o : Oracle) (now : Int) : Except String Db :=
  match db.campaign with
  | none => Except.error "Campaign not found"
  | some campaign =>
    let snapshot := db.recipients.filter (fun r =>
      r.status == RStatus.PENDING || r.status == RStatus.IN_PROGRESS)
    if campaign.status ≠ CStatus.RUNNING then Except.ok db
    else if db.steps.length = 0 then Except.ok db
    else
      let accounts := getCampaignAccounts db
      if accounts.length = 0 then Except.error "No accounts assigned to campaign"
      else
        let db1 := accounts.foldl (processAccount o now campaign db.steps snapshot) db
        let remaining := (db1.recipients.filter (fun r =>
          r.status == RStatus.PENDING || r.status == RStatus.IN_PROGRESS)).length
        if remaining = 0 then
          Except.ok { db1 with campaign := db1.campaign.map (fun c =>
            { c with status := CStatus.COMPLETED, completedAt := some now }) }
        else Except.ok db1

/-- One invocation as seen by the trigger: a thrown invocation leaves the
persisted state unchanged (both throw sites in the source occur before any
write). -/
def processCampaignRun (db : Db) (o : Oracle) (now : Int) : Db :=
  match processCampaign db o now with
  | Except.ok d => d
  | Except.error _ => db

/-- A sequence of (non-overlapping) invocations. -/
def runInvocations (invs : List (Oracle × Int)) (db : Db) : Db :=
  invs.foldl (fun d p => processCampaignRun d p.1 p.2) db

/-! Concrete instances shared by the claim theorems below. -/

/-- A contact with a display name and an Instagram username. -/
def sampleContact (i : Nat) : Contact := ⟨i, some "A", some "usera"⟩

/-- A freshly enrolled, immediately due recipient assigned to account 1. -/
def sampleRecipient (i : Nat) : RecipientRec :=
  ⟨i, sampleContact i, 1, RStatus.PENDING, 0, none, none, none⟩

/-- The spec's end-to-end scenario: RUNNING campaign, one step with
`delayMinutes = 0`, one account with `messagesPerDay = 10`, three PENDING
recipients all due now, empty ledger. -/
def e2eDb : Db :=
  { campaign := some ⟨1, CStatus.RUNNING, 10, 0, 0, none⟩
    steps := [⟨1, 1, "Hello \x7b\x7bname\x7d\x7d", 0, []⟩]
    recipients := [sampleRecipient 1, sampleRecipient 2, sampleRecipient 3]
    junctionAccounts := [1]
    legacyAccount := none
    igAccounts := [(1, some "tok")]
    ledger := []
    messages := []
    conversations := []
    nextConvId := 1 }

/-- An oracle whose transport always succeeds and whose cookie decryption
works. -/
def okOracle : Oracle :=
  { send := fun _ => SendOutcome.result true none
    variantPick := fun _ => 0
    decrypt := fun _ => some "ck" }

/-- State after one invocation on the end-to-end scenario. -/
def e2eFirst : Db := processCampaignRun e2eDb okOracle 0

/-- State after a second invocation. -/
def e2eSecond : Db := processCampaignRun e2eFirst okOracle 0

/-- Campaign with `messagesPerDay = 1` and two due recipients on the same
account. -/
def capOneDb : Db :=
  { campaign := some ⟨1, CStatus.RUNNING, 1, 0, 0, none⟩
    steps := [⟨1, 1, "Hello \x7b\x7bname\x7d\x7d", 0, []⟩]
    recipients := [sampleRecipient 1, sampleRecipient 2]
    junctionAccounts := [1]
    legacyAccount := none
    igAccounts := [(1, some "tok")]
    ledger := []
    messages := []
    conversations := []
    nextConvId := 1 }

/-- Invocation returned normally (did not throw). -/
def invocationOk (e : Except String Db) : Prop := ∃ d, e = Except.ok d

/-- A RUNNING campaign with a step but no assigned accounts (empty junction,
no legacy account). -/
def noAccountsDb : Db :=
  { campaign := some ⟨1, CStatus.RUNNING, 10, 0, 0, none⟩
    steps := [⟨1, 1, "Hello \x7b\x7bname\x7d\x7d", 0, []⟩]
    recipients := [sampleRecipient 1]
    junctionAccounts := []
    legacyAccount := none
    igAccounts := []
    ledger := []
    messages := []
    conversations := []
    nextConvId := 1 }

/-- An oracle whose transport reports the structured failure
`{success: false, error: "user not found"}` for every recipient. -/
def failOracle : Oracle :=
  { send := fun _ => SendOutcome.result false (some "user not found")
    variantPick := fun _ => 0
    decrypt := fun _ => some "ck" }

/-- Membership of a timestamp's local time-of-day in the half-open window
`[startMinutes, endMinutes)` taken modulo 24 hours, the spec's reading of the
send window (an equal-endpoint window is empty; a wrapping window has
duration `(end - start) mod 24h`). -/
@[reducible] def todWithinWindow (startMinutes endMinutes : Int) (t : Int) : Prop :=
  (t % dayLen - startMinutes * 60000) % dayLen
    < (endMinutes - startMinutes) % 1440 * 60000

/-- The three-recipient schedule used as the C4 counterexample. -/
def gapCfg : ScheduleConfig := ⟨"09:00:00", "12:00:00", "UTC", 10, [7]⟩

/-- Assignments of contacts to account 7. -/
def gapAsg (i : Nat) : Assignment := ⟨1, i, 7, 0⟩

/-- Draw sequence that generates 10:17:00, 10:00:00 and 10:03:00 and then a
9-minute jitter on the third adjustment. -/
def gapDraws : Nat → ℚ := fun k =>
  if k = 0 then mkRat 41 108 else if k = 2 then mkRat 2 9 else
  if k = 4 then mkRat 1 4 else if k = 6 then mkRat 9 10 else 0

/-- A narrow 09:00-09:10 window used as the C5 counterexample. -/
def winCfg : ScheduleConfig := ⟨"09:00:00", "09:10:00", "UTC", 10, [7]⟩

/-- Draws putting the first recipient at 09:05:00 and the second at 09:02:00
(with a zero jitter draw for the forced adjustment). -/
def winDraws : Nat → ℚ := fun k => if k = 0 then mkRat 1 2 else 0

/-- A campaign whose single account already sent 5 of a 3-message cap today. -/
def ledgerFullDb : Db :=
  { campaign := some ⟨1, CStatus.RUNNING, 3, 0, 0, none⟩
    steps := [⟨1, 1, "Hello \x7b\x7bname\x7d\x7d", 0, []⟩]
    recipients := [sampleRecipient 1]
    junctionAccounts := [1]
    legacyAccount := none
    igAccounts := [(1, some "tok")]
    ledger := [⟨1, 0, 5⟩]
    messages := []
    conversations := []
    nextConvId := 1 }

/-- One-invocation invariant: each recipient row keeps its id and either keeps
its `currentStepOrder` or advances it by exactly one (the only write is
`currentStepOrder := currentStep.stepOrder` with
`currentStep.stepOrder = snapshot.currentStepOrder + 1`). -/
def CsoInv (orig cur : List RecipientRec) : Prop :=
  List.Forall₂ (fun o c => o.id = c.id
    ∧ (c.currentStepOrder = o.currentStepOrder
        ∨ c.currentStepOrder = o.currentStepOrder + 1)) orig cur

/-- Row-wise non-decrease of `currentStepOrder` (same ids, ordered counts). -/
def CsoLe (orig cur : List RecipientRec) : Prop :=
  List.Forall₂ (fun o c => o.id = c.id
    ∧ o.currentStepOrder ≤ c.currentStepOrder) orig cur

/-- C2 counterexample: on the spec's exact end-to-end scenario, a single
`processCampaign` call leaves all three recipients IN_PROGRESS (not
COMPLETED) and the campaign RUNNING (not COMPLETED): a successful final-step
send writes status IN_PROGRESS, and the completion sweep only counts
remaining PENDING / IN_PROGRESS rows, which is still 3. -/
theorem c2_counterexample :
    e2eFirst.recipients.map (fun r => r.status)
        = [RStatus.IN_PROGRESS, RStatus.IN_PROGRESS, RStatus.IN_PROGRESS]
      ∧ e2eFirst.campaign.map (fun c => c.status) = some CStatus.RUNNING
      ∧ RStatus.IN_PROGRESS ≠ RStatus.COMPLETED
      ∧ CStatus.RUNNING ≠ CStatus.COMPLETED := by decide

/-- C2 amended: after ONE call the three recipients are IN_PROGRESS with
`currentStepOrder = 1` and `nextProcessAt = null`, `sentCount = 3`, the
account's daily count is 3 and the campaign is still RUNNING; a SECOND call
marks all three recipients COMPLETED and the campaign COMPLETED, with
`sentCount` and the ledger unchanged at 3. -/
theorem c2_amended_theorem :
    e2eFirst.recipients.map (fun r => (r.status, r.currentStepOrder, r.nextProcessAt))
        = [(RStatus.IN_PROGRESS, 1, none), (RStatus.IN_PROGRESS, 1, none),
           (RStatus.IN_PROGRESS, 1, none)]
      ∧ e2eFirst.campaign.map (fun c => (c.status, c.sentCount)) = some (CStatus.RUNNING, 3)
      ∧ getAccountDailyCount e2eFirst.ledger 1 0 = 3
      ∧ e2eSecond.recipients.map (fun r => r.status)
        = [RStatus.COMPLETED, RStatus.COMPLETED, RStatus.COMPLETED]
      ∧ e2eSecond.campaign.map (fun c => (c.status, c.sentCount)) = some (CStatus.COMPLETED, 3)
      ∧ getAccountDailyCount e2eSecond.ledger 1 0 = 3 := by decide

/-- C6 counterexample: with `{name: null, igUsername: "abc"}` the `{{name}}`
fallback chain is name, then username, then "there", so the output is
"Hi abc, @abc", not the claimed "Hi there, @abc". -/
theorem c6_counterexample :
    personalizeMessage "Hi \x7b\x7bname\x7d\x7d, @\x7b\x7busername\x7d\x7d"
        ⟨1, none, some "abc"⟩ = "Hi abc, @abc"
      ∧ ("Hi abc, @abc" : String) ≠ "Hi there, @abc" := by decide

/-- C6 amended: the null-name contact renders to "Hi abc, @abc" (username
fallback precedes the literal "there"); the named contact renders to
"Hi Sam, @abc" as claimed. -/
theorem c6_amended_theorem :
    personalizeMessage "Hi \x7b\x7bname\x7d\x7d, @\x7b\x7busername\x7d\x7d"
        ⟨1, none, some "abc"⟩ = "Hi abc, @abc"
      ∧ personalizeMessage "Hi \x7b\x7bname\x7d\x7d, @\x7b\x7busername\x7d\x7d"
        ⟨1, some "Sam", some "abc"⟩ = "Hi Sam, @abc" := by decide

/-- C1 counterexample: with `messagesPerDay = 1` and two due recipients, one
invocation performs two successful sends, so the account's daily ledger count
reaches 2 > 1: the check before the per-recipient loop does not keep the
account at or under the cap. -/
theorem c1_counterexample :
    capOneDb.campaign.map (fun c => c.messagesPerDay) = some 1
      ∧ getAccountDailyCount (processCampaignRun capOneDb okOracle 0).ledger 1 0 = 2 := by
  decide

/-! Claim C10: next-day overflow scheduling. -/

/-- The over-quota branch yields exactly one day ahead, and the condition is
`cap ≤ dc + i`. -/
theorem scheduledBaseDate_eq_next_iff (today : Int) (cap dc i : Nat) :
    scheduledBaseDate today cap dc i = today + dayLen ↔ cap ≤ dc + i := by
  unfold scheduledBaseDate dayLen
  split <;> constructor <;> intro h <;> omega

/-- Number of indices in an account partition of size `n` that get the
next-day base date. -/
theorem nextDayCount_eq (today : Int) (cap dc : Nat) : ∀ n : Nat,
    ((List.range n).filter (fun i =>
      decide (scheduledBaseDate today cap dc i = today + dayLen))).length
      = n - (cap - dc) := by
  intro n
  induction n with
  | zero => simp
  | succ n ih =>
    rw [List.range_succ, List.filter_append, List.length_append, ih]
    by_cases h : cap ≤ dc + n
    · have ht : decide (scheduledBaseDate today cap dc n = today + dayLen) = true := by
        simp [scheduledBaseDate_eq_next_iff, h]
      simp only [List.filter, ht, List.length_cons, List.length_nil]
      omega
    · have hf : decide (scheduledBaseDate today cap dc n = today + dayLen) = false := by
        simp [scheduledBaseDate_eq_next_iff, h]
      simp only [List.filter, hf, List.length_nil]
      omega

/-- C10 counterexample: with `dailyCount = 15`, `messagesPerDay = 10` and a
partition of `n = 6` recipients, `n` exceeds `2*messagesPerDay - dailyCount`
(`6 > 5`), yet only 6 recipients land on the next day, which does not exceed
`messagesPerDay = 10`: the claimed consequence fails whenever the daily count
already exceeds the cap. -/
theorem c10_counterexample :
    (2 * (10 : Int) - 15 < 6)
      ∧ ((List.range 6).filter (fun i =>
          decide (scheduledBaseDate 0 10 15 i = 0 + dayLen))).length = 6
      ∧ ¬ (10 < ((List.range 6).filter (fun i =>
          decide (scheduledBaseDate 0 10 15 i = 0 + dayLen))).length) := by decide

/-- C10 amended: every over-quota index gets a base date of exactly one day
after today (never more), and — provided the starting daily count does not
already exceed the cap — a partition with more than
`2*messagesPerDay - dailyCount` recipients puts more than `messagesPerDay`
of them on that single next day. -/
theorem c10_amended_theorem (today : Int) (cap dc n : Nat) :
    (∀ i : Nat, cap ≤ dc + i → scheduledBaseDate today cap dc i = today + dayLen)
      ∧ (dc ≤ cap → 2 * (cap : Int) - dc < n →
          cap < ((List.range n).filter (fun i =>
            decide (scheduledBaseDate today cap dc i = today + dayLen))).length) := by
  constructor
  · intro i h
    exact (scheduledBaseDate_eq_next_iff today cap dc i).mpr h
  · intro hdc hn
    rw [nextDayCount_eq]
    omega

/-- C10 witness: with cap 10, daily count 5 and 20 recipients, index 7 is
over quota and lands exactly one day ahead, and 15 > 10 recipients land on
the next day. -/
theorem c10_witness :
    scheduledBaseDate 0 10 5 7 = 0 + dayLen
      ∧ 10 < ((List.range 20).filter (fun i =>
          decide (scheduledBaseDate 0 10 5 i = 0 + dayLen))).length :=
  ⟨(c10_amended_theorem 0 10 5 20).1 7 (by decide),
   (c10_amended_theorem 0 10 5 20).2 (by decide) (by decide)⟩

/-! Claim C9: the scheduler ignores the configured timezone. -/

/-- C9: two configs that agree on everything except `timezone` produce
identical schedules for the same assignments, ledger, date and random draws —
the scheduler never reads `config.timezone`, and `generateRandomTime` places
`sendStartTime` / `sendEndTime` on the runtime's local clock via
`setHours` / `setMinutes`. -/
theorem c9_theorem (campaignId : Nat) (assignments : List Assignment)
    (cfg1 cfg2 : ScheduleConfig) (ledger : List LedgerRec) (today : Int)
    (draws : Nat → ℚ)
    (hs : cfg1.sendStartTime = cfg2.sendStartTime)
    (he : cfg1.sendEndTime = cfg2.sendEndTime)
    (hm : cfg1.messagesPerDay = cfg2.messagesPerDay)
    (ha : cfg1.accountIds = cfg2.accountIds) :
    assignRecipientsAndSchedule campaignId assignments cfg1 ledger today draws
      = assignRecipientsAndSchedule campaignId assignments cfg2 ledger today draws := by
  cases cfg1 with
  | mk s1 e1 tz1 m1 a1 =>
    cases cfg2 with
    | mk s2 e2 tz2 m2 a2 =>
      dsimp at hs he hm ha
      subst hs; subst he; subst hm; subst ha
      rfl

/-- C9 witness: concrete schedules for two configs differing only in
timezone coincide. -/
theorem c9_witness :
    assignRecipientsAndSchedule 1 [⟨1, 1, 7, 0⟩]
        ⟨"09:00:00", "17:00:00", "UTC", 10, [7]⟩ [] 0 (fun _ => 0)
      = assignRecipientsAndSchedule 1 [⟨1, 1, 7, 0⟩]
        ⟨"09:00:00", "17:00:00", "US/Eastern", 10, [7]⟩ [] 0 (fun _ => 0) :=
  c9_theorem 1 [⟨1, 1, 7, 0⟩] ⟨"09:00:00", "17:00:00", "UTC", 10, [7]⟩
    ⟨"09:00:00", "17:00:00", "US/Eastern", 10, [7]⟩ [] 0 (fun _ => 0)
    rfl rfl rfl rfl

/-! Claim C3: error propagation of `processCampaign`. -/

/-- C3 counterexample: on a RUNNING campaign with steps but an empty account
list, `processCampaign` throws ("No accounts assigned to campaign") instead of
completing normally — the no-accounts configuration error does propagate to
the caller. -/
theorem c3_counterexample :
    processCampaign noAccountsDb okOracle 0
        = Except.error "No accounts assigned to campaign"
      ∧ noAccountsDb.campaign.map (fun c => c.status) = some CStatus.RUNNING
      ∧ noAccountsDb.steps ≠ [] :=
  ⟨rfl, by decide, by decide⟩

/-- C3 amended: whenever the campaign record loads, `processCampaign` returns
normally if and only if the status is not RUNNING, or there are no steps, or
at least one account is assigned; in particular it never throws on the
not-RUNNING / no-steps configuration conditions nor on any recipient-level
transport failure or exception (the oracle is universally quantified), while
the no-accounts configuration error is the one case that throws. -/
theorem c3_amended_theorem (db : Db) (o : Oracle) (now : Int) :
    invocationOk (processCampaign db o now) ↔
      ∃ c, db.campaign = some c
        ∧ (c.status ≠ CStatus.RUNNING ∨ db.steps = [] ∨ getCampaignAccounts db ≠ []) := by
  unfold invocationOk
  simp only [processCampaign]
  cases hc : db.campaign with
  | none =>
    constructor
    · rintro ⟨d, hd⟩
      simp at hd
    · rintro ⟨c, hcc, _⟩
      simp at hcc
  | some c =>
    dsimp only
    split_ifs with h1 h2 h3 h4
    · exact ⟨fun _ => ⟨c, rfl, Or.inl h1⟩, fun _ => ⟨db, rfl⟩⟩
    · exact ⟨fun _ => ⟨c, rfl, Or.inr (Or.inl (List.length_eq_zero.mp h2))⟩,
        fun _ => ⟨db, rfl⟩⟩
    · constructor
      · rintro ⟨d, hd⟩
        simp at hd
      · rintro ⟨c', hcc, hdis⟩
        rw [Option.some.injEq] at hcc
        subst hcc
        rcases hdis with h | h | h
        · exact absurd h h1
        · exact (h2 (by rw [h]; rfl)).elim
        · exact (h (List.length_eq_zero.mp h3)).elim
    · exact ⟨fun _ => ⟨c, rfl, Or.inr (Or.inr fun hacc => h3 (by rw [hacc]; rfl))⟩,
        fun _ => ⟨_, rfl⟩⟩
    · exact ⟨fun _ => ⟨c, rfl, Or.inr (Or.inr fun hacc => h3 (by rw [hacc]; rfl))⟩,
        fun _ => ⟨_, rfl⟩⟩

/-- C3 witness: a concrete invocation with a RUNNING campaign, steps, one
assigned account and an always-failing transport still returns normally. -/
theorem c3_witness : invocationOk (processCampaign e2eDb
    { send := fun _ => SendOutcome.exn none
      variantPick := fun _ => 0
      decrypt := fun _ => some "ck" } 0) :=
  (c3_amended_theorem e2eDb
    { send := fun _ => SendOutcome.exn none
      variantPick := fun _ => 0
      decrypt := fun _ => some "ck" } 0).mpr
    ⟨⟨1, CStatus.RUNNING, 10, 0, 0, none⟩, rfl, Or.inr (Or.inr (by decide))⟩

/-! Claim C7: effects of a structured transport failure. -/

/-- C7: when the transport returns `{success: false, error: "user not found"}`
for a due recipient with a pending step, the run loop marks exactly that
recipient FAILED with that error message (all its other fields unchanged),
increments `campaign.failedCount` by one, and leaves the message store, the
daily ledger, the conversation store and everything else untouched. -/
theorem c7_theorem (o : Oracle) (now : Int) (steps : List StepRec)
    (accountId : Nat) (cookies : String) (db : Db) (r : RecipientRec)
    (currentStep : StepRec)
    (hdue : (match r.nextProcessAt with
      | some t => decide (now < t)
      | none => false) = false)
    (hstep : steps.find? (fun s => s.stepOrder == r.currentStepOrder + 1)
      = some currentStep)
    (hsend : o.send r.id = SendOutcome.result false (some "user not found")) :
    (processRecipient o now steps accountId cookies db r).recipients
        = db.recipients.map (fun x => if x.id = r.id then
            { x with status := RStatus.FAILED,
                     errorMessage := some "user not found" }
          else x)
      ∧ (processRecipient o now steps accountId cookies db r).campaign
        = db.campaign.map (fun c => { c with failedCount := c.failedCount + 1 })
      ∧ (processRecipient o now steps accountId cookies db r).messages = db.messages
      ∧ (processRecipient o now steps accountId cookies db r).ledger = db.ledger
      ∧ (processRecipient o now steps accountId cookies db r).conversations
        = db.conversations
      ∧ (processRecipient o now steps accountId cookies db r).nextConvId
        = db.nextConvId
      ∧ (processRecipient o now steps accountId cookies db r).steps = db.steps := by
  simp [processRecipient, hdue, hstep, hsend, jsOrOpt, jsOr, updateRecipient]

/-- C7 witness: the theorem applied to a concrete due recipient with a
failing transport. -/
theorem c7_witness :
    (processRecipient failOracle 0 capOneDb.steps 1 "ck" capOneDb
        (sampleRecipient 1)).recipients
      = capOneDb.recipients.map (fun x => if x.id = (sampleRecipient 1).id then
          { x with status := RStatus.FAILED,
                   errorMessage := some "user not found" }
        else x)
    ∧ (processRecipient failOracle 0 capOneDb.steps 1 "ck" capOneDb
        (sampleRecipient 1)).campaign
      = capOneDb.campaign.map (fun c => { c with failedCount := c.failedCount + 1 })
    ∧ (processRecipient failOracle 0 capOneDb.steps 1 "ck" capOneDb
        (sampleRecipient 1)).messages = capOneDb.messages
    ∧ (processRecipient failOracle 0 capOneDb.steps 1 "ck" capOneDb
        (sampleRecipient 1)).ledger = capOneDb.ledger
    ∧ (processRecipient failOracle 0 capOneDb.steps 1 "ck" capOneDb
        (sampleRecipient 1)).conversations = capOneDb.conversations
    ∧ (processRecipient failOracle 0 capOneDb.steps 1 "ck" capOneDb
        (sampleRecipient 1)).nextConvId = capOneDb.nextConvId
    ∧ (processRecipient failOracle 0 capOneDb.steps 1 "ck" capOneDb
        (sampleRecipient 1)).steps = capOneDb.steps :=
  c7_theorem failOracle 0 capOneDb.steps 1 "ck" capOneDb (sampleRecipient 1)
    ⟨1, 1, "Hello \x7b\x7bname\x7d\x7d", 0, []⟩ rfl rfl rfl

/-! Claims C4 and C5: the time-window scheduler.  First the bridge lemmas
showing the integer-computed floors equal the real-valued floors of the
source expressions. -/

/-- Bridge: `floorRatMulInt` is the floor of the rational product. -/
theorem floorRatMulInt_eq (q : ℚ) (n : Int) :
    floorRatMulInt q n = Int.floor (q * (n : ℚ)) := by
  have hd : ((q.den : ℚ)) ≠ 0 := Nat.cast_ne_zero.mpr q.den_nz
  have hnum : (q.num : ℚ) = q * (q.den : ℚ) := (div_eq_iff hd).mp (Rat.num_div_den q)
  have h : q * (n : ℚ) = ((q.num * n : ℤ) : ℚ) / ((q.den : ℕ) : ℚ) := by
    rw [eq_div_iff hd]
    push_cast
    rw [hnum]
    ring
  rw [h, Rat.floor_intCast_div_natCast]
  rfl

/-- Bridge: `floorRandomMinutes` is the floor of the source's
`startMinutes + rangeMinutes * (0.2 + random * 0.6)` expression. -/
theorem floorRandomMinutes_eq (sm range : Int) (q : ℚ) :
    floorRandomMinutes sm range q
      = Int.floor ((sm : ℚ) + (range : ℚ) * (q * (6/10) + (2/10))) := by
  have hd : ((q.den : ℚ)) ≠ 0 := Nat.cast_ne_zero.mpr q.den_nz
  have hd10 : (((10 * q.den : ℕ)) : ℚ) ≠ 0 :=
    Nat.cast_ne_zero.mpr (Nat.mul_ne_zero (by norm_num) q.den_nz)
  have hnum : (q.num : ℚ) = q * (q.den : ℚ) := (div_eq_iff hd).mp (Rat.num_div_den q)
  have h : (range : ℚ) * (q * (6/10) + (2/10))
      = ((range * (6 * q.num + 2 * (q.den : Int)) : ℤ) : ℚ) / (((10 * q.den : ℕ)) : ℚ) := by
    rw [eq_div_iff hd10]
    push_cast
    rw [hnum]
    ring
  rw [floorRandomMinutes, h, Int.floor_int_add, Rat.floor_intCast_div_natCast]
  push_cast
  ring

/-- A jitter floor of a non-negative draw is non-negative. -/
theorem floorRatMulInt_nonneg (q : ℚ) (n : Int) (hq : 0 ≤ q) (hn : 0 ≤ n) :
    0 ≤ floorRatMulInt q n :=
  Int.ediv_nonneg (mul_nonneg (Rat.num_nonneg.mpr hq) hn) (by positivity)

/-- Fold-invariant helper used by several proofs below. -/
theorem foldl_preserve {α β : Type _} (P : β → Prop) (f : β → α → β)
    (l : List α) (b : β) (hstep : ∀ d x, P d → P (f d x)) (hb : P b) :
    P (l.foldl f b) := by
  induction l generalizing b with
  | nil => exact hb
  | cons x xs ih => exact ih (f b x) (hstep b x hb)

/-- Closed form of the `setHours` / `setMinutes` / `setSeconds` chain of
`generateRandomTime`. -/
theorem gen_closed_form (h m sec date : Int) :
    setSeconds sec (setMinutes m (setHours h date))
      = date - date % 86400000 + h * 3600000 + m * 60000 + sec * 1000
          + date % 1000 := by
  unfold setSeconds setMinutes setHours dayLen
  omega

/-- Window containment over the integer tail of `generateRandomTime`. -/
theorem todWithin_core (sm em range date rm sec : Int)
    (h1 : 0 ≤ sm) (h2 : sm < 1440) (h3 : 0 ≤ em) (h4 : em < 1440)
    (hr : range = if em - sm < 0 then em - sm + 24 * 60 else em - sm)
    (hrm1 : sm ≤ rm) (hrm2 : rm < sm + range) (hs1 : 0 ≤ sec) (hs2 : sec < 60) :
    todWithinWindow sm em
      (setSeconds sec (setMinutes (rm % 60) (setHours (rm / 60) date))) := by
  rw [gen_closed_form]
  unfold todWithinWindow dayLen
  split at hr <;> omega

/-- C4 counterexample: in one scheduling pass for a single account, the third
generated time (10:03) collides with the second (10:00) and is pushed to
10:14, which lands within 5 minutes of the first (10:17): the pass emits the
same-account timestamps 10:17:00 and 10:14:00, only 3 minutes apart. -/
theorem c4_counterexample :
    (assignRecipientsAndSchedule 1 [gapAsg 1, gapAsg 2, gapAsg 3] gapCfg [] 0
        gapDraws).map (fun s => s.nextProcessAt)
      = [37020000, 36000000, 36840000]
    ∧ |(36840000 : Int) - 37020000| < 5 * 60 * 1000 := by decide

/-- Each `ensureMinimumGap` result is at least 5 minutes away from the LAST
already-scheduled time: the final loop iteration either leaves a time already
5 minutes clear of it, or pushes past it by 5 minutes plus a non-negative
jitter. -/
theorem ensureMinimumGap_last (time : Int) (existing : List Int) (draws : Nat → ℚ)
    (k : Nat) (hd : ∀ i, 0 ≤ draws i) (e : Int) (he : existing.getLast? = some e) :
    5 * 60 * 1000 ≤ |(ensureMinimumGap time existing 5 draws k).1 - e| := by
  induction existing using List.reverseRecOn with
  | nil => simp at he
  | append_singleton l a _ =>
    rw [List.getLast?_concat] at he
    cases he
    unfold ensureMinimumGap
    rw [List.foldl_append]
    simp only [List.foldl]
    set x := List.foldl
      (fun st existingTime =>
        if |st.1 - existingTime| < 5 * 60 * 1000 then
          (existingTime + 5 * 60 * 1000 + floorRatMulInt (draws st.2) 600000, st.2 + 1)
        else st)
      (time, k) l with hx
    by_cases h : |x.1 - e| < 5 * 60 * 1000
    · rw [if_pos h]
      have hj : 0 ≤ floorRatMulInt (draws x.2) 600000 :=
        floorRatMulInt_nonneg _ _ (hd x.2) (by norm_num)
      calc (5 * 60 * 1000 : Int)
          ≤ e + 5 * 60 * 1000 + floorRatMulInt (draws x.2) 600000 - e := by omega
        _ ≤ |e + 5 * 60 * 1000 + floorRatMulInt (draws x.2) 600000 - e| := le_abs_self _
    · rw [if_neg h]
      omega

/-- Fold invariant: within one account's pass the produced `nextProcessAt`
list mirrors the internal `scheduledTimes` list and consecutive entries are
at least 5 minutes apart. -/
theorem scheduleForAccount_chain (config : ScheduleConfig) (today : Int)
    (draws : Nat → ℚ) (dc : Nat) (recipients : List Assignment) (k : Nat)
    (hd : ∀ i, 0 ≤ draws i) :
    (scheduleForAccount config today draws dc recipients k).2.2.map
        (fun s => s.nextProcessAt)
      = (scheduleForAccount config today draws dc recipients k).1
    ∧ List.Chain' (fun t1 t2 => 5 * 60 * 1000 ≤ |t2 - t1|)
        (scheduleForAccount config today draws dc recipients k).1 := by
  unfold scheduleForAccount
  refine foldl_preserve
    (fun st => st.2.2.map (fun s => s.nextProcessAt) = st.1
      ∧ List.Chain' (fun t1 t2 => 5 * 60 * 1000 ≤ |t2 - t1|) st.1)
    (scheduleAccountStep config today draws dc) recipients ([], k, [])
    ?_ ⟨rfl, List.chain'_nil⟩
  intro st r hst
  obtain ⟨hmap, hchain⟩ := hst
  unfold scheduleAccountStep
  constructor
  · simp [hmap]
  · rw [List.chain'_append]
    refine ⟨hchain, List.chain'_singleton _, ?_⟩
    intro x hx y hy
    simp only [List.head?_cons, Option.mem_def, Option.some.injEq] at hy
    subst hy
    exact ensureMinimumGap_last _ _ _ _ hd x hx

/-- C4 amended: in one scheduling pass, each timestamp produced for an account
is at least 5 minutes from the immediately preceding timestamp of the same
account (consecutive entries of the pass), with any `Math.random` draws in
`[0,1)`; the full pairwise claim fails because a gap adjustment can land
within 5 minutes of an earlier, non-adjacent timestamp. -/
theorem c4_amended_theorem (config : ScheduleConfig) (today : Int)
    (draws : Nat → ℚ) (dc : Nat) (recipients : List Assignment) (k : Nat)
    (hd : ∀ i, 0 ≤ draws i) :
    List.Chain' (fun t1 t2 => 5 * 60 * 1000 ≤ |t2 - t1|)
      ((scheduleForAccount config today draws dc recipients k).2.2.map
        (fun s => s.nextProcessAt)) := by
  obtain ⟨hmap, hchain⟩ :=
    scheduleForAccount_chain config today draws dc recipients k hd
  rw [hmap]
  exact hchain

/-- C4 witness: the consecutive-gap theorem applied to a concrete two-recipient
pass. -/
theorem c4_witness :
    List.Chain' (fun t1 t2 => 5 * 60 * 1000 ≤ |t2 - t1|)
      ((scheduleForAccount gapCfg 0 (fun _ => 0) 0 [gapAsg 1, gapAsg 2] 0).2.2.map
        (fun s => s.nextProcessAt)) :=
  c4_amended_theorem gapCfg 0 (fun _ => 0) 0 [gapAsg 1, gapAsg 2] 0
    (fun _ => le_refl 0)

/-- C5 counterexample: the scheduler's gap adjustment pushes the second
recipient from 09:02:00 to exactly 09:10:00, whose time-of-day is outside the
half-open window [09:00, 09:10): not every timestamp produced by the
scheduling pass falls within the configured window. -/
theorem c5_counterexample :
    (assignRecipientsAndSchedule 1 [gapAsg 1, gapAsg 2] winCfg [] 0 winDraws).map
        (fun s => s.nextProcessAt) = [32700000, 33000000]
      ∧ (parseClock "09:00:00").1 * 60 + (parseClock "09:00:00").2 = 540
      ∧ (parseClock "09:10:00").1 * 60 + (parseClock "09:10:00").2 = 550
      ∧ todWithinWindow 540 550 32700000
      ∧ ¬ todWithinWindow 540 550 33000000 := by decide

/-- C5 amended: every timestamp as produced by `generateRandomTime` (before
the minimum-gap adjustment) for a well-formed, non-empty window — including
wrapping windows — has its time-of-day inside `[startTime, endTime)` mod 24h;
the claim fails for the scheduler's final output because `ensureMinimumGap`
can push a timestamp past the window end (and it also fails for the empty
window `startTime = endTime`). -/
theorem c5_amended_theorem (startTime endTime : String) (date : Int) (r1 r2 : ℚ)
    (sm em : Int)
    (hs : (parseClock startTime).1 * 60 + (parseClock startTime).2 = sm)
    (he : (parseClock endTime).1 * 60 + (parseClock endTime).2 = em)
    (h1 : 0 ≤ sm) (h2 : sm < 1440) (h3 : 0 ≤ em) (h4 : em < 1440) (hne : sm ≠ em)
    (hr1a : 0 ≤ r1) (hr1b : r1 < 1) (hr2a : 0 ≤ r2) (hr2b : r2 < 1) :
    todWithinWindow sm em (generateRandomTime startTime endTime date r1 r2) := by
  simp only [generateRandomTime]
  rw [hs, he]
  rw [floorRandomMinutes_eq, floorRatMulInt_eq]
  set RANGE : Int := if em - sm < 0 then em - sm + 24 * 60 else em - sm with hRANGE
  set RM : Int := Int.floor ((sm : ℚ) + (RANGE : ℚ) * (r1 * (6/10) + (2/10))) with hRM
  have hRpos : 1 ≤ RANGE := by
    rw [hRANGE]; split <;> omega
  have hfac1 : (0:ℚ) < r1 * (6/10) + (2/10) := by linarith
  have hfac2 : r1 * (6/10) + (2/10) < 1 := by linarith
  have hRq : (1:ℚ) ≤ (RANGE : ℚ) := by exact_mod_cast hRpos
  have hrm1 : sm ≤ RM := by
    rw [hRM]
    apply Int.le_floor.mpr
    nlinarith
  have hrm2 : RM < sm + RANGE := by
    rw [hRM]
    apply Int.floor_lt.mpr
    push_cast
    nlinarith
  have hsec1 : 0 ≤ Int.floor (r2 * ((60 : Int) : ℚ)) := by
    apply Int.le_floor.mpr
    have h60 : (0:ℚ) ≤ ((60 : Int) : ℚ) := by norm_num
    push_cast
    nlinarith
  have hsec2 : Int.floor (r2 * ((60 : Int) : ℚ)) < 60 := by
    apply Int.floor_lt.mpr
    push_cast
    linarith
  exact todWithin_core sm em RANGE date RM (Int.floor (r2 * ((60 : Int) : ℚ)))
    h1 h2 h3 h4 hRANGE hrm1 hrm2 hsec1 hsec2

/-- C5 witness: a concrete 09:00-17:00 window, zero draws. -/
theorem c5_witness :
    todWithinWindow 540 1020 (generateRandomTime "09:00:00" "17:00:00" 0 0 0) :=
  c5_amended_theorem "09:00:00" "17:00:00" 0 0 0 540 1020 (by decide) (by decide)
    (by decide) (by decide) (by decide) (by decide) (by decide)
    (le_refl 0) (by norm_num) (le_refl 0) (by norm_num)

/-! Claim C1 (amended): the pre-loop quota check only guarantees that an
account already at or above the cap sends nothing. -/

/-- Incrementing one account's daily counter leaves every other account's
count unchanged (map case of the upsert). -/
theorem find?_inc_map_ne (l : List LedgerRec) (a b : Nat) (d dn : Int) (h : a ≠ b) :
    (l.map (fun e => if e.instagramAccountId == b && e.date == d then
        { e with messageCount := e.messageCount + 1 } else e)).find?
      (fun e => e.instagramAccountId == a && e.date == dn)
    = l.find? (fun e => e.instagramAccountId == a && e.date == dn) := by
  induction l with
  | nil => rfl
  | cons e l ih =>
    simp only [List.map_cons, List.find?_cons]
    by_cases hb : (e.instagramAccountId == b && e.date == d) = true
    · have hid : e.instagramAccountId = b := by
        simp only [Bool.and_eq_true, beq_iff_eq] at hb
        exact hb.1
      have ha : (e.instagramAccountId == a && e.date == dn) = false := by
        rw [hid]
        simp [beq_eq_false_iff_ne, Ne.symm h]
      rw [if_pos hb, ha]
      exact ih
    · rw [if_neg hb]
      by_cases ha : (e.instagramAccountId == a && e.date == dn) = true
      · rw [ha]
      · rw [Bool.not_eq_true] at ha
        rw [ha]
        exact ih

/-- `incrementAccountDailyCount` for account `b` preserves account `a`'s
daily count when `a ≠ b` (both the increment and the insert case). -/
theorem getDC_increment_ne (db : Db) (a b : Nat) (t now2 : Int) (h : a ≠ b) :
    getAccountDailyCount (incrementAccountDailyCount db b t).ledger a now2
      = getAccountDailyCount db.ledger a now2 := by
  simp only [incrementAccountDailyCount]
  split
  · unfold getAccountDailyCount
    dsimp only
    rw [find?_inc_map_ne _ _ _ _ _ h]
  · unfold getAccountDailyCount
    dsimp only
    rw [List.find?_append]
    have hnone : (List.find? (fun e => e.instagramAccountId == a && e.date == utcDay now2)
        [(⟨b, utcDay t, 1⟩ : LedgerRec)]) = none := by
      simp [beq_eq_false_iff_ne, Ne.symm h]
    rw [hnone]
    cases List.find? (fun e => e.instagramAccountId == a && e.date == utcDay now2) db.ledger <;>
      rfl

/-- Creating or fetching a conversation never touches the ledger. -/
theorem getOrCreate_ledger (db : Db) (x y : Nat) :
    (getOrCreateConversation db x y).2.ledger = db.ledger := by
  unfold getOrCreateConversation
  split <;> rfl

/-- Processing one recipient of account `accountId` preserves every other
account's daily count. -/
theorem processRecipient_dc_ne (o : Oracle) (now : Int) (steps : List StepRec)
    (accountId : Nat) (cookies : String) (db : Db) (r : RecipientRec)
    (a : Nat) (ha : a ≠ accountId) :
    getAccountDailyCount (processRecipient o now steps accountId cookies db r).ledger a now
      = getAccountDailyCount db.ledger a now := by
  unfold processRecipient
  split
  · rfl
  · split
    · rfl
    · dsimp only
      split
      · rfl
      · rw [getDC_increment_ne _ _ _ _ _ ha]
        dsimp only
        rw [getOrCreate_ledger]
        rfl
      · rfl

/-- One account's pass preserves the daily count of any account whose count
already meets the cap: a foreign account never touches it, and the account
itself is skipped by the pre-loop check. -/
theorem processAccount_dc_preserve (o : Oracle) (now : Int) (campaign : CampaignRec)
    (steps : List StepRec) (snapshot : List RecipientRec) (db : Db)
    (accountId : Nat) (a : Nat) (C : Nat)
    (hcap : campaign.messagesPerDay ≤ C)
    (hd : getAccountDailyCount db.ledger a now = C) :
    getAccountDailyCount (processAccount o now campaign steps snapshot db accountId).ledger a now
      = C := by
  by_cases hacc : a = accountId
  · subst hacc
    unfold processAccount
    dsimp only
    split
    · exact hd
    · split
      · exact hd
      · rw [if_pos (by rw [hd]; exact hcap)]
        exact hd
  · unfold processAccount
    dsimp only
    split
    · exact hd
    · split
      · exact hd
      · split
        · exact hd
        · refine foldl_preserve
            (fun d => getAccountDailyCount d.ledger a now = C) _ _ db ?_ hd
          intro d x hdx
          rw [processRecipient_dc_ne _ _ _ _ _ _ _ _ hacc]
          exact hdx

/-- C1 amended: if an account's daily count already meets or exceeds
`campaign.messagesPerDay` when the invocation starts, the invocation performs
no send for it and its ledger count for that day is unchanged; the claim as
stated fails because an account that starts below the cap is checked only
once, before the per-recipient loop, and can overshoot the cap within the
invocation (see the counterexample). -/
theorem c1_amended_theorem (db : Db) (o : Oracle) (now : Int) (a : Nat)
    (c : CampaignRec) (hc : db.campaign = some c)
    (h : c.messagesPerDay ≤ getAccountDailyCount db.ledger a now) :
    getAccountDailyCount (processCampaignRun db o now).ledger a now
      = getAccountDailyCount db.ledger a now := by
  have hfold : getAccountDailyCount
      ((getCampaignAccounts db).foldl (processAccount o now c db.steps
        (db.recipients.filter (fun r =>
          r.status == RStatus.PENDING || r.status == RStatus.IN_PROGRESS))) db).ledger a now
      = getAccountDailyCount db.ledger a now := by
    refine foldl_preserve
      (fun d => getAccountDailyCount d.ledger a now
        = getAccountDailyCount db.ledger a now) _ _ db ?_ rfl
    intro d x hdx
    exact processAccount_dc_preserve o now c db.steps _ d x a _ h hdx
  unfold processCampaignRun processCampaign
  rw [hc]
  dsimp only
  split_ifs with h1 h2 h3 h4
  · rfl
  · rfl
  · rfl
  · exact hfold
  · exact hfold

/-- C1 witness: an at-cap account is fully skipped, so its count is unchanged
by the invocation. -/
theorem c1_witness :
    getAccountDailyCount (processCampaignRun ledgerFullDb okOracle 0).ledger 1 0
      = getAccountDailyCount ledgerFullDb.ledger 1 0 :=
  c1_amended_theorem ledgerFullDb okOracle 0 1 ⟨1, CStatus.RUNNING, 3, 0, 0, none⟩
    rfl (by decide)

/-! Claim C8: `currentStepOrder` is non-decreasing. -/

/-- Map a pointwise transformation over the right list of a `Forall₂`,
threading membership of the left element. -/
theorem forall2_map_mem {α β : Type _} {R S : α → β → Prop} (g : β → β)
    (l1 : List α) (l2 : List β)
    (hg : ∀ o c, o ∈ l1 → R o c → S o (g c)) (h : List.Forall₂ R l1 l2) :
    List.Forall₂ S l1 (l2.map g) := by
  induction l1 generalizing l2 with
  | nil =>
    cases h
    exact List.Forall₂.nil
  | cons o tl ih =>
    cases h with
    | cons hoc htail =>
      rename_i c ctl
      exact List.Forall₂.cons (hg o c (List.mem_cons_self _ _) hoc)
        (ih ctl (fun x y hx hr => hg x y (List.mem_cons_of_mem _ hx) hr) htail)

/-- The invariant is reflexive. -/
theorem csoInv_refl (l : List RecipientRec) : CsoInv l l := by
  induction l with
  | nil => exact List.Forall₂.nil
  | cons x xs ih => exact List.Forall₂.cons ⟨rfl, Or.inl rfl⟩ ih

/-- A point update that keeps both id and `currentStepOrder` preserves the
invariant. -/
theorem csoInv_map_keep (orig cur : List RecipientRec) (rid : Nat)
    (f : RecipientRec → RecipientRec)
    (hf : ∀ x, (f x).id = x.id ∧ (f x).currentStepOrder = x.currentStepOrder)
    (h : CsoInv orig cur) :
    CsoInv orig (cur.map (fun r => if r.id = rid then f r else r)) := by
  refine forall2_map_mem _ _ _ ?_ h
  intro o c _ hoc
  by_cases hc : c.id = rid
  · simp only [if_pos hc]
    exact ⟨hoc.1.trans (hf c).1.symm, by rw [(hf c).2]; exact hoc.2⟩
  · simp only [if_neg hc]
    exact hoc

/-- A point update that writes the absolute value
`snapshot.currentStepOrder + 1` preserves the invariant. -/
theorem csoInv_map_set (orig cur : List RecipientRec) (rid : Nat) (v : Nat)
    (f : RecipientRec → RecipientRec)
    (hf : ∀ x, (f x).id = x.id ∧ (f x).currentStepOrder = v)
    (hs : ∀ x ∈ orig, x.id = rid → v = x.currentStepOrder + 1)
    (h : CsoInv orig cur) :
    CsoInv orig (cur.map (fun r => if r.id = rid then f r else r)) := by
  refine forall2_map_mem _ _ _ ?_ h
  intro o c ho hoc
  by_cases hc : c.id = rid
  · simp only [if_pos hc]
    have hov : v = o.currentStepOrder + 1 := hs o ho (hoc.1.trans hc)
    exact ⟨hoc.1.trans (hf c).1.symm, Or.inr (by rw [(hf c).2, hov])⟩
  · simp only [if_neg hc]
    exact hoc

/-- The ledger upsert never touches the recipients. -/
theorem increment_recipients (db : Db) (b : Nat) (t : Int) :
    (incrementAccountDailyCount db b t).recipients = db.recipients := by
  unfold incrementAccountDailyCount
  dsimp only
  split <;> rfl

/-- The conversation upsert never touches the recipients. -/
theorem getOrCreate_recipients (db : Db) (x y : Nat) :
    (getOrCreateConversation db x y).2.recipients = db.recipients := by
  unfold getOrCreateConversation
  split <;> rfl

/-- Processing one snapshot recipient preserves the invariant, provided every
stored row with that id agrees with the snapshot's `currentStepOrder`. -/
theorem processRecipient_csoInv (o : Oracle) (now : Int) (steps : List StepRec)
    (accountId : Nat) (cookies : String) (db : Db) (r : RecipientRec)
    (orig : List RecipientRec)
    (hagree : ∀ x ∈ orig, x.id = r.id → x.currentStepOrder = r.currentStepOrder)
    (h : CsoInv orig db.recipients) :
    CsoInv orig (processRecipient o now steps accountId cookies db r).recipients := by
  unfold processRecipient
  split
  · exact h
  · split
    · exact csoInv_map_keep _ _ _ _ (fun x => ⟨rfl, rfl⟩) h
    · rename_i currentStep heq
      dsimp only
      split
      · exact csoInv_map_keep _ _ _ _ (fun x => ⟨rfl, rfl⟩) h
      · have hstep : currentStep.stepOrder = r.currentStepOrder + 1 := by
          have hp := List.find?_some heq
          simpa using hp
        rw [increment_recipients]
        dsimp only
        rw [getOrCreate_recipients]
        refine csoInv_map_set _ _ _ currentStep.stepOrder _ (fun x => ⟨rfl, rfl⟩) ?_ h
        intro x hx hid
        rw [hstep, hagree x hx hid]
      · exact csoInv_map_keep _ _ _ _ (fun x => ⟨rfl, rfl⟩) h

/-- Fold-invariant helper that also provides membership of the element. -/
theorem foldl_preserve_mem {α β : Type _} (P : β → Prop) (f : β → α → β) :
    ∀ (l : List α) (b : β), (∀ d x, x ∈ l → P d → P (f d x)) → P b → P (l.foldl f b)
  | [], _, _, hb => hb
  | x :: xs, b, hstep, hb =>
    foldl_preserve_mem P f xs (f b x)
      (fun d y hy hd => hstep d y (List.mem_cons_of_mem _ hy) hd)
      (hstep b x (List.mem_cons_self _ _) hb)

/-- One account's pass preserves the invariant. -/
theorem processAccount_csoInv (o : Oracle) (now : Int) (campaign : CampaignRec)
    (steps : List StepRec) (snapshot : List RecipientRec) (db : Db)
    (accountId : Nat) (orig : List RecipientRec)
    (hagree : ∀ s ∈ snapshot, ∀ x ∈ orig, x.id = s.id
      → x.currentStepOrder = s.currentStepOrder)
    (h : CsoInv orig db.recipients) :
    CsoInv orig (processAccount o now campaign steps snapshot db accountId).recipients := by
  unfold processAccount
  dsimp only
  split
  · exact h
  · split
    · exact h
    · split
      · exact h
      · refine foldl_preserve_mem (fun d => CsoInv orig d.recipients) _ _ db ?_ h
        intro d s hs hd
        exact processRecipient_csoInv o now steps accountId _ d s orig
          (hagree s (List.mem_of_mem_filter hs)) hd

/-- A whole invocation satisfies the invariant when recipient ids are unique
(the database's primary key). -/
theorem processCampaignRun_csoInv (db : Db) (o : Oracle) (now : Int)
    (hnd : (db.recipients.map (fun r => r.id)).Nodup) :
    CsoInv db.recipients (processCampaignRun db o now).recipients := by
  have hagree : ∀ s ∈ db.recipients.filter (fun r =>
      r.status == RStatus.PENDING || r.status == RStatus.IN_PROGRESS),
      ∀ x ∈ db.recipients, x.id = s.id → x.currentStepOrder = s.currentStepOrder := by
    intro s hs x hx hid
    have hsmem : s ∈ db.recipients := List.mem_of_mem_filter hs
    have hxs : x = s := List.inj_on_of_nodup_map hnd hx hsmem hid
    rw [hxs]
  unfold processCampaignRun processCampaign
  cases hc : db.campaign with
  | none => exact csoInv_refl _
  | some c =>
    dsimp only
    split_ifs with h1 h2 h3 h4
    · exact csoInv_refl _
    · exact csoInv_refl _
    · exact csoInv_refl _
    · refine foldl_preserve (fun d => CsoInv db.recipients d.recipients) _ _ db ?_
        (csoInv_refl _)
      intro d x hd
      exact processAccount_csoInv o now c db.steps _ d x db.recipients hagree hd
    · refine foldl_preserve (fun d => CsoInv db.recipients d.recipients) _ _ db ?_
        (csoInv_refl _)
      intro d x hd
      exact processAccount_csoInv o now c db.steps _ d x db.recipients hagree hd

/-- Keeping or advancing by one implies non-decrease. -/
theorem csoInv_to_csoLe {a b : List RecipientRec} (h : CsoInv a b) : CsoLe a b :=
  List.Forall₂.imp (fun o c hoc => ⟨hoc.1, by rcases hoc.2 with h2 | h2 <;> omega⟩) h

/-- Non-decrease is reflexive. -/
theorem csoLe_refl (l : List RecipientRec) : CsoLe l l := by
  induction l with
  | nil => exact List.Forall₂.nil
  | cons x xs ih => exact List.Forall₂.cons ⟨rfl, le_refl _⟩ ih

/-- Non-decrease composes across invocations. -/
theorem csoLe_trans : ∀ {a b c : List RecipientRec}, CsoLe a b → CsoLe b c → CsoLe a c := by
  intro a b c h1
  induction h1 generalizing c with
  | nil =>
    intro h2
    cases h2
    exact List.Forall₂.nil
  | cons hab _ ih =>
    intro h2
    cases h2 with
    | cons hbc htbc =>
      exact List.Forall₂.cons ⟨hab.1.trans hbc.1, le_trans hab.2 hbc.2⟩ (ih htbc)

/-- Invocations preserve the id column, so uniqueness of ids persists. -/
theorem csoLe_map_id {a b : List RecipientRec} (h : CsoLe a b) :
    a.map (fun r => r.id) = b.map (fun r => r.id) := by
  induction h with
  | nil => rfl
  | cons hab _ ih =>
    simp only [List.map_cons, ih]
    rename_i o c _ _
    rw [hab.1]

/-- C8: across any sequence of (non-overlapping) `processCampaign`
invocations, with unique recipient ids, every recipient keeps its id and its
`currentStepOrder` never decreases — the only write sets it to the snapshot
value plus one. -/
theorem c8_theorem (invs : List (Oracle × Int)) (db : Db)
    (hnd : (db.recipients.map (fun r => r.id)).Nodup) :
    CsoLe db.recipients (runInvocations invs db).recipients := by
  induction invs generalizing db with
  | nil => exact csoLe_refl _
  | cons p rest ih =>
    have h1 : CsoLe db.recipients (processCampaignRun db p.1 p.2).recipients :=
      csoInv_to_csoLe (processCampaignRun_csoInv db p.1 p.2 hnd)
    have hnd2 : ((processCampaignRun db p.1 p.2).recipients.map (fun r => r.id)).Nodup := by
      rw [← csoLe_map_id h1]
      exact hnd
    exact csoLe_trans h1 (ih (processCampaignRun db p.1 p.2) hnd2)

/-- C8 witness: two invocations on the two-recipient campaign. -/
theorem c8_witness :
    CsoLe capOneDb.recipients
      (runInvocations [(okOracle, 0), (okOracle, 0)] capOneDb).recipients :=
  c8_theorem [(okOracle, 0), (okOracle, 0)] capOneDb (by decide)
